import Mathlib

/-!
Verification of the raster-to-vector conversion pipeline (background
detection and removal, gradient-edge cleanup, alpha trimming, palette
extraction, upscaling, and the tracing orchestrator).

The raster is modelled as a width, a height, and a pixel function; the
source's flat RGBA byte buffer indexed by `(y * width + x) * 4` becomes
`pix x y`.  JavaScript floating-point arithmetic (`Math.round`, mean
intensities, per-channel ratios) is modelled over the rationals, and
`Math.abs`, `Math.min`, `Math.max` over naturals become `Int.natAbs`,
`min`, `max`.  PNG encode/decode round-trips between the pipeline stages
are the identity on the modelled raster and are elided.
-/

/-- an RGB color: three 0-255 integer channels. -/
structure RGB where
  r : Nat
  g : Nat
  b : Nat
deriving DecidableEq

/-- an RGBA pixel sample. -/
structure RGBA where
  r : Nat
  g : Nat
  b : Nat
  a : Nat
deriving DecidableEq

def RGBA.rgb (p : RGBA) : RGB := ⟨p.r, p.g, p.b⟩

/-- raster image: dimensions plus a pixel accessor (the flat RGBA buffer of
the source, read at `(y * width + x) * 4`). -/
structure RasterImage where
  width : Nat
  height : Nat
  pix : Nat → Nat → RGBA

/-- absolute difference of two channel values, `Math.abs(c1.x - c2.x)`. -/
def absDiff (a b : Nat) : Nat := Int.natAbs ((a : Int) - (b : Int))

/-- colorsMatch: two colors are similar when every channel differs by at
most `tolerance`. -/
def colorsMatch (c1 c2 : RGB) (tolerance : Nat) : Prop :=
  absDiff c1.r c2.r ≤ tolerance ∧
  absDiff c1.g c2.g ≤ tolerance ∧
  absDiff c1.b c2.b ≤ tolerance

instance (c1 c2 : RGB) (t : Nat) : Decidable (colorsMatch c1 c2 t) := by
  unfold colorsMatch; infer_instance

/-- row-major enumeration of the pixel coordinates of a `w × h` raster,
`y` in the outer loop and `x` in the inner loop, as in every per-pixel
scan of the source. -/
def coordList (w h : Nat) : List (Nat × Nat) :=
  (List.range h).flatMap (fun y => (List.range w).map (fun x => (x, y)))

/-- `Math.round(num / den)` on nonnegative values: round-half-up division. -/
def jsRoundDiv (num den : Nat) : Nat := (2 * num + den) / (2 * den)

/-- sampleRegionColor: mean R, G, B and alpha over the `w × h` region of
the image whose top-left corner is `(l, t)`, each channel rounded with
`Math.round`.  `pixelCount` is `w * h` as in the source. -/
def sampleRegionColor (img : RasterImage) (l t w h : Nat) : RGBA :=
  let n := w * h
  ⟨jsRoundDiv (((coordList w h).map (fun c => (img.pix (l + c.1) (t + c.2)).r)).sum) n,
   jsRoundDiv (((coordList w h).map (fun c => (img.pix (l + c.1) (t + c.2)).g)).sum) n,
   jsRoundDiv (((coordList w h).map (fun c => (img.pix (l + c.1) (t + c.2)).b)).sum) n,
   jsRoundDiv (((coordList w h).map (fun c => (img.pix (l + c.1) (t + c.2)).a)).sum) n⟩

/-- corner sample size `Math.min(10, Math.floor(Math.min(width, height) / 10))`. -/
def cornerSampleSize (w h : Nat) : Nat := min 10 (min w h / 10)

/-- center sample size `Math.min(sampleSize * 2, Math.floor(Math.min(width, height) / 4))`. -/
def centerSampleSize (w h : Nat) : Nat := min (cornerSampleSize w h * 2) (min w h / 4)

/-- center region left `Math.floor((width - centerSize) / 2)`. -/
def centerLeft (w h : Nat) : Nat := (w - centerSampleSize w h) / 2

/-- center region top `Math.floor((height - centerSize) / 2)`. -/
def centerTop (w h : Nat) : Nat := (h - centerSampleSize w h) / 2

/-- mean color of the top-left corner region, sampled at
`(Math.max(0, 0), Math.max(0, 0))` with side `Math.min(sampleSize, width)`
by `Math.min(sampleSize, height)` as in the source. -/
def cornerColor0 (img : RasterImage) : RGBA :=
  sampleRegionColor img (max 0 0) (max 0 0)
    (min (cornerSampleSize img.width img.height) img.width)
    (min (cornerSampleSize img.width img.height) img.height)

/-- mean color of the top-right corner region. -/
def cornerColor1 (img : RasterImage) : RGBA :=
  sampleRegionColor img (max 0 (img.width - cornerSampleSize img.width img.height)) (max 0 0)
    (min (cornerSampleSize img.width img.height) img.width)
    (min (cornerSampleSize img.width img.height) img.height)

/-- mean color of the bottom-left corner region. -/
def cornerColor2 (img : RasterImage) : RGBA :=
  sampleRegionColor img (max 0 0) (max 0 (img.height - cornerSampleSize img.width img.height))
    (min (cornerSampleSize img.width img.height) img.width)
    (min (cornerSampleSize img.width img.height) img.height)

/-- mean color of the bottom-right corner region. -/
def cornerColor3 (img : RasterImage) : RGBA :=
  sampleRegionColor img (max 0 (img.width - cornerSampleSize img.width img.height))
    (max 0 (img.height - cornerSampleSize img.width img.height))
    (min (cornerSampleSize img.width img.height) img.width)
    (min (cornerSampleSize img.width img.height) img.height)

/-- the candidate background color: the four corner means averaged
channel-wise with `Math.round`. -/
def avgCornerColor (img : RasterImage) : RGB :=
  ⟨jsRoundDiv ((cornerColor0 img).r + (cornerColor1 img).r +
      (cornerColor2 img).r + (cornerColor3 img).r) 4,
   jsRoundDiv ((cornerColor0 img).g + (cornerColor1 img).g +
      (cornerColor2 img).g + (cornerColor3 img).g) 4,
   jsRoundDiv ((cornerColor0 img).b + (cornerColor1 img).b +
      (cornerColor2 img).b + (cornerColor3 img).b) 4⟩

/-- mean color of the center region. -/
def centerColor (img : RasterImage) : RGBA :=
  sampleRegionColor img (centerLeft img.width img.height) (centerTop img.width img.height)
    (centerSampleSize img.width img.height) (centerSampleSize img.width img.height)

/-- detectBackgroundColor: samples the four corner regions; returns none
when the image has no known dimensions, is too small to sample, the corner
mean alpha is below 128, the corners do not all match the first corner
within tolerance 30, or the center region matches the averaged corner
color within tolerance 30; otherwise returns the averaged corner color. -/
def detectBackgroundColor (img : RasterImage) : Option RGB :=
  if img.width = 0 ∨ img.height = 0 then none
  else if cornerSampleSize img.width img.height < 2 then none
  else if (((cornerColor0 img).a + (cornerColor1 img).a +
      (cornerColor2 img).a + (cornerColor3 img).a : ℚ) / 4) < 128 then none
  else if ¬ (colorsMatch (cornerColor0 img).rgb (cornerColor0 img).rgb 30 ∧
      colorsMatch (cornerColor1 img).rgb (cornerColor0 img).rgb 30 ∧
      colorsMatch (cornerColor2 img).rgb (cornerColor0 img).rgb 30 ∧
      colorsMatch (cornerColor3 img).rgb (cornerColor0 img).rgb 30) then none
  else if colorsMatch (centerColor img).rgb (avgCornerColor img) 30 then none
  else some (avgCornerColor img)

/-- per-pixel action of removeBackground: a pixel matching the background
color within tolerance becomes fully transparent black, any other pixel
passes through untouched (alpha included). -/
def removeBackgroundPixel (bg : RGB) (tolerance : Nat) (p : RGBA) : RGBA :=
  if colorsMatch p.rgb bg tolerance then ⟨0, 0, 0, 0⟩ else p

/-- removeBackground: with an explicit background color that color is used
directly; otherwise the detector runs, and a `none` detection returns the
image unchanged (the model is already RGBA, so `ensureAlpha` is the
identity). -/
def removeBackground (bgColor : Option RGB) (tolerance : Nat) (img : RasterImage) :
    RasterImage :=
  match bgColor with
  | some bg =>
      ⟨img.width, img.height, fun x y => removeBackgroundPixel bg tolerance (img.pix x y)⟩
  | none =>
      match detectBackgroundColor img with
      | none => img
      | some bg =>
          ⟨img.width, img.height, fun x y => removeBackgroundPixel bg tolerance (img.pix x y)⟩

/-- crop of the image to the `w × h` rectangle whose top-left corner is
`(l, t)` (sharp's `extract`). -/
def extractRegion (img : RasterImage) (l t w h : Nat) : RasterImage :=
  ⟨w, h, fun x y => img.pix (x + l) (y + t)⟩

/-- one step of trimAlpha's bounding-box scan: a pixel with alpha > 0
shrinks `minX`/`minY` and grows `maxX`/`maxY`. -/
def bboxStep (img : RasterImage) (st : Nat × Nat × Nat × Nat) (c : Nat × Nat) :
    Nat × Nat × Nat × Nat :=
  if 0 < (img.pix c.1 c.2).a then
    (min st.1 c.1, min st.2.1 c.2, max st.2.2.1 c.1, max st.2.2.2 c.2)
  else st

/-- trimAlpha's full scan for `(minX, minY, maxX, maxY)`, starting from
`(width, height, 0, 0)`. -/
def bboxFold (img : RasterImage) : Nat × Nat × Nat × Nat :=
  (coordList img.width img.height).foldl (bboxStep img) (img.width, img.height, 0, 0)

def bboxMinX (img : RasterImage) : Nat := (bboxFold img).1

def bboxMinY (img : RasterImage) : Nat := (bboxFold img).2.1

def bboxMaxX (img : RasterImage) : Nat := (bboxFold img).2.2.1

def bboxMaxY (img : RasterImage) : Nat := (bboxFold img).2.2.2

/-- trimAlpha: scan for the bounding box of pixels with alpha > 0; when
`minX >= maxX` or `minY >= maxY` return the input, otherwise extract the
box widened by a 2-pixel margin (`Math.max(0, . - margin)` on naturals is
truncated subtraction). -/
def trimAlpha (img : RasterImage) : RasterImage :=
  let minX := bboxMinX img
  let minY := bboxMinY img
  let maxX := bboxMaxX img
  let maxY := bboxMaxY img
  if minX ≥ maxX ∨ minY ≥ maxY then img
  else
    let extractLeft := minX - 2
    let extractTop := minY - 2
    let extractWidth := min (img.width - extractLeft) (maxX - minX + 1 + 2 * 2)
    let extractHeight := min (img.height - extractTop) (maxY - minY + 1 + 2 * 2)
    extractRegion img extractLeft extractTop extractWidth extractHeight

/-- Modelled from the spec: the trim as the specification sentence states
it — if no pixel has alpha > 0 the input is returned unchanged, otherwise
the image is cropped to the bounding box of the pixels with alpha > 0,
expanded by exactly 2 pixels on every side and clamped to the image
bounds.  Used only as the comparison point for the refinement claim on
`trimAlpha`. -/
def specTrim (img : RasterImage) : RasterImage :=
  if ∀ x, x < img.width → ∀ y, y < img.height → (img.pix x y).a = 0 then img
  else
    let minX := bboxMinX img
    let minY := bboxMinY img
    let maxX := bboxMaxX img
    let maxY := bboxMaxY img
    let left := minX - 2
    let top := minY - 2
    let right := min (img.width - 1) (maxX + 2)
    let bottom := min (img.height - 1) (maxY + 2)
    extractRegion img left top (right - left + 1) (bottom - top + 1)

/-- quantization `Math.round(v / 8) * 8` applied by getDominantColor to
reduce noise. -/
def quantize8 (v : Nat) : Nat := ((v + 4) / 8) * 8

/-- the quantized colors of the opaque (alpha >= 128) pixels in scan
order — the stream of histogram insertions in getDominantColor. -/
def opaqueQuantColors (img : RasterImage) : List RGB :=
  (coordList img.width img.height).filterMap (fun c =>
    if 128 ≤ (img.pix c.1 c.2).a then
      some ⟨quantize8 (img.pix c.1 c.2).r, quantize8 (img.pix c.1 c.2).g,
        quantize8 (img.pix c.1 c.2).b⟩
    else none)

/-- the distinct keys of a stream in first-occurrence order (the insertion
order of the source's `Map`). -/
def distinctKeys : List RGB → List RGB → List RGB
  | [], acc => acc.reverse
  | c :: l, acc => if c ∈ acc then distinctKeys l acc else distinctKeys l (c :: acc)

/-- the key with the highest count, the earliest key winning ties — the
head of the stable sort by descending count in the source. -/
def pickMax (freq : RGB → Nat) : List RGB → Option RGB
  | [] => none
  | c :: l =>
    match pickMax freq l with
    | none => some c
    | some d => if freq c < freq d then some d else some c

/-- getDominantColor: the most frequent quantized color among opaque
pixels, none when no opaque pixel exists. -/
def getDominantColor (img : RasterImage) : Option RGB :=
  pickMax (fun c => (opaqueQuantColors img).count c)
    (distinctKeys (opaqueQuantColors img) [])

/-- the eight neighbor offsets scanned by the gradient edge cleaner. -/
def neighborOffsets : List (Int × Int) :=
  [(-1, -1), (0, -1), (1, -1), (-1, 0), (1, 0), (-1, 1), (0, 1), (1, 1)]

/-- number of in-bounds 8-neighbors of `(x, y)` whose alpha is below 128. -/
def transparentNeighborCount (img : RasterImage) (x y : Nat) : Nat :=
  neighborOffsets.countP (fun d =>
    decide (0 ≤ (x : Int) + d.1 ∧ (x : Int) + d.1 < (img.width : Int) ∧
      0 ≤ (y : Int) + d.2 ∧ (y : Int) + d.2 < (img.height : Int) ∧
      (img.pix ((x : Int) + d.1).toNat ((y : Int) + d.2).toNat).a < 128))

/-- mean-channel intensity `(r + g + b) / 3` over the rationals. -/
def intensity (c : RGB) : ℚ := ((c.r : ℚ) + (c.g : ℚ) + (c.b : ℚ)) / 3

/-- `Math.abs` over the rationals. -/
def qabs (q : ℚ) : ℚ := if q < 0 then -q else q

/-- the denominator `r + g + b || 1` of the per-channel color ratios. -/
def ratioTotal (c : RGB) : ℚ :=
  if c.r + c.g + c.b = 0 then 1 else ((c.r + c.g + c.b : Nat) : ℚ)

/-- sum of the three per-channel ratio deviations between the dominant
color and a pixel color. -/
def ratioDiffSum (dom p : RGB) : ℚ :=
  qabs ((dom.r : ℚ) / ratioTotal dom - (p.r : ℚ) / ratioTotal p) +
    qabs ((dom.g : ℚ) / ratioTotal dom - (p.g : ℚ) / ratioTotal p) +
    qabs ((dom.b : ℚ) / ratioTotal dom - (p.b : ℚ) / ratioTotal p)

/-- isWashedOut: the intensity difference to the dominant color lies
strictly between 20 and 150. -/
def isWashedOut (dom p : RGB) : Prop :=
  20 < qabs (intensity p - intensity dom) ∧ qabs (intensity p - intensity dom) < 150

/-- isSimilarHue: combined per-channel ratio deviation strictly below 0.3. -/
def isSimilarHue (dom p : RGB) : Prop := ratioDiffSum dom p < 3 / 10

instance (dom p : RGB) : Decidable (isWashedOut dom p) := by
  unfold isWashedOut; infer_instance

instance (dom p : RGB) : Decidable (isSimilarHue dom p) := by
  unfold isSimilarHue; infer_instance

/-- the condition under which one cleanup pass zeroes the pixel at
`(x, y)`: opaque, at least one transparent 8-neighbor, not within the
tolerance of the dominant color, and either a washed-out same-hue blend or
4 or more transparent neighbors. -/
def gradientRemnant (img : RasterImage) (dom : RGB) (tol : Nat) (x y : Nat) : Prop :=
  128 ≤ (img.pix x y).a ∧
  1 ≤ transparentNeighborCount img x y ∧
  ¬ colorsMatch (img.pix x y).rgb dom tol ∧
  ((isWashedOut dom (img.pix x y).rgb ∧ isSimilarHue dom (img.pix x y).rgb) ∨
    4 ≤ transparentNeighborCount img x y)

instance (img : RasterImage) (dom : RGB) (tol x y : Nat) :
    Decidable (gradientRemnant img dom tol x y) := by
  unfold gradientRemnant; infer_instance

/-- one cleanup pass: every condition is evaluated against the input
raster `data`, writes go to the fresh copy `outputData`. -/
def cleanupPass (dom : RGB) (tol : Nat) (img : RasterImage) : RasterImage :=
  ⟨img.width, img.height, fun x y =>
    if x < img.width ∧ y < img.height ∧ gradientRemnant img dom tol x y then ⟨0, 0, 0, 0⟩
    else img.pix x y⟩

/-- `pixelsRemoved`: how many pixels a pass zeroes. -/
def removedCount (dom : RGB) (tol : Nat) (img : RasterImage) : Nat :=
  (coordList img.width img.height).countP
    (fun c => decide (gradientRemnant img dom tol c.1 c.2))

/-- the pass loop of cleanupGradientEdges, with its early exit when a pass
removes no pixel. -/
def cleanupLoop (dom : RGB) (tol : Nat) : Nat → RasterImage → RasterImage
  | 0, img => img
  | n + 1, img =>
    if removedCount dom tol img = 0 then img
    else cleanupLoop dom tol n (cleanupPass dom tol img)

/-- cleanupGradientEdges with the given pass budget and tolerance; when no
dominant color exists (no opaque pixel) the stage is a no-op. -/
def cleanupGradientEdges (passes tol : Nat) (img : RasterImage) : RasterImage :=
  match getDominantColor img with
  | none => img
  | some dom => cleanupLoop dom tol passes img

/-- the wiring of convertImageToSvg: a positive cleanup level runs
`Math.ceil(level / 2)` passes at tolerance `30 + level * 5`. -/
def gradientCleanupStage (level : Nat) (img : RasterImage) : RasterImage :=
  if 0 < level then cleanupGradientEdges ((level + 1) / 2) (30 + level * 5) img else img

/-- a single pass replayed as an in-place fold over an arbitrary visiting
order of coordinates: every visited coordinate whose (input-raster)
condition holds is zeroed in the output copy. -/
def cleanupPassFold (dom : RGB) (tol : Nat) (img : RasterImage)
    (order : List (Nat × Nat)) : RasterImage :=
  order.foldl (fun out c =>
    if gradientRemnant img dom tol c.1 c.2 then
      ⟨out.width, out.height, fun x y =>
        if x = c.1 ∧ y = c.2 then ⟨0, 0, 0, 0⟩ else out.pix x y⟩
    else out) img

/-- the exact colors of the opaque (alpha >= 128) pixels in scan order —
the stream of histogram insertions in extractUniqueColors. -/
def opaqueColors (img : RasterImage) : List RGB :=
  (coordList img.width img.height).filterMap (fun c =>
    if 128 ≤ (img.pix c.1 c.2).a then some (img.pix c.1 c.2).rgb else none)

/-- the exact frequency of a color among the opaque pixels. -/
def colorFreq (img : RasterImage) (c : RGB) : Nat := (opaqueColors img).count c

/-- the distinct exact colors, the key set of the histogram. -/
def colorKeys (img : RasterImage) : List RGB := distinctKeys (opaqueColors img) []

/-- the by-frequency-descending order produced by the stable sort. -/
def freqRel (img : RasterImage) : RGB → RGB → Prop :=
  fun a b => colorFreq img b ≤ colorFreq img a

instance (img : RasterImage) : DecidableRel (freqRel img) := fun a b => by
  unfold freqRel; infer_instance

instance (img : RasterImage) : IsTotal RGB (freqRel img) :=
  ⟨fun a b => le_total (colorFreq img b) (colorFreq img a)⟩

instance (img : RasterImage) : IsTrans RGB (freqRel img) :=
  ⟨fun _ _ _ hab hbc => le_trans hbc hab⟩

/-- the histogram keys sorted by descending frequency. -/
def sortedColors (img : RasterImage) : List RGB :=
  List.insertionSort (freqRel img) (colorKeys img)

/-- the greedy filter of extractUniqueColors: a candidate is appended only
if it matches (within tolerance) no color already admitted. -/
def greedyDistinct (tol : Nat) : List RGB → List RGB → List RGB
  | [], acc => acc
  | c :: l, acc =>
    if acc.any (fun e => decide (colorsMatch c e tol)) then greedyDistinct tol l acc
    else greedyDistinct tol l (acc ++ [c])

/-- extractUniqueColors: the greedy tolerance-dedup of the opaque color
histogram sorted by descending frequency. -/
def extractUniqueColors (img : RasterImage) (tol : Nat) : List RGB :=
  greedyDistinct tol (sortedColors img) []

/-- `Math.round` on a nonnegative rational, `floor(q + 1/2)`. -/
def jsRoundQ (q : ℚ) : Nat := (⌊q + 1/2⌋).toNat

/-- the effective upscale factor: the requested factor, reduced to
`4000 / max(width, height)` when the scaled longest side would exceed the
4000-pixel ceiling. -/
def effectiveScale (w h : Nat) (factor : ℚ) : ℚ :=
  if ((max w h : ℕ) : ℚ) * factor > 4000 then 4000 / ((max w h : ℕ) : ℚ) else factor

/-- result record of upscaleForTracing. -/
structure UpscaleResult where
  buffer : RasterImage
  scale : ℚ
  originalWidth : Nat
  originalHeight : Nat

/-- upscaleForTracing: unknown or degenerate dimensions and effective
scales of at most 1 return the input with scale 1; otherwise the raster is
resized (an external resampling primitive) to the rounded scaled
dimensions. -/
def upscaleForTracing (resize : RasterImage → Nat → Nat → RasterImage)
    (img : RasterImage) (scaleFactor : ℚ) : UpscaleResult :=
  if img.width = 0 ∨ img.height = 0 then ⟨img, 1, img.width, img.height⟩
  else if effectiveScale img.width img.height scaleFactor ≤ 1 then
    ⟨img, 1, img.width, img.height⟩
  else
    ⟨resize img (jsRoundQ ((img.width : ℚ) * effectiveScale img.width img.height scaleFactor))
        (jsRoundQ ((img.height : ℚ) * effectiveScale img.width img.height scaleFactor)),
      effectiveScale img.width img.height scaleFactor, img.width, img.height⟩

/-- a hex digit character as produced by `toString(16)` (lowercase). -/
def hexDigit (n : Nat) : Char := Char.ofNat (if n < 10 then 48 + n else 87 + n)

/-- `toString(16).padStart(2, ...)` of a channel value 0-255. -/
def toHex2 (n : Nat) : String := String.mk [hexDigit (n / 16 % 16), hexDigit (n % 16)]

/-- rgbToHex: `#rrggbb`. -/
def rgbToHex (c : RGB) : String := "#" ++ toHex2 c.r ++ toHex2 c.g ++ toHex2 c.b

/-- a single-channel mask raster with values in 0 or 255. -/
structure MaskImage where
  width : Nat
  height : Nat
  pix : Nat → Nat → Nat

/-- createColorMask: 0 (black, traced) where the source pixel is opaque and
matches the target within tolerance, 255 (white) elsewhere. -/
def createColorMask (img : RasterImage) (target : RGB) (tol : Nat) : MaskImage :=
  ⟨img.width, img.height, fun x y =>
    if 128 ≤ (img.pix x y).a ∧ colorsMatch (img.pix x y).rgb target tol then 0 else 255⟩

/-- outcome of one external trace call after extracting the path geometry
and the viewBox from its SVG text. -/
structure TraceResult where
  pathData : Option String
  viewBox : Option (Nat × Nat)

/-- a traced path fragment: fill color as hex text plus path geometry. -/
structure PathFragment where
  color : String
  d : String

/-- the vector document composed by the orchestrator: display size, the
traced coordinate space, and the ordered path fragments. -/
structure VectorDocument where
  width : Nat
  height : Nat
  viewBox : Nat × Nat
  fragments : List PathFragment

/-- the empty document at the given display size. -/
def emptyDocument (w h : Nat) : VectorDocument := ⟨w, h, (w, h), []⟩

/-- a whitespace character as stripped by `String.prototype.trim`. -/
def isWsChar (ch : Char) : Bool := ch = ' ' || ch = '\t' || ch = '\n' || ch = '\r'

/-- `trim()`: strip leading and trailing whitespace. -/
def strTrim (s : String) : String :=
  String.mk (((s.data.dropWhile isWsChar).reverse.dropWhile isWsChar).reverse)

/-- the per-color tracing loop: build the color's mask, trace it, keep the
fragment only when the extracted path is nonempty after trimming, and
record the first reported viewBox. -/
def traceColors {ε : Type} (trace : MaskImage → Except ε TraceResult)
    (buf : RasterImage) (tol : Nat) :
    List RGB → List PathFragment → Option (Nat × Nat) →
      Except ε (List PathFragment × Option (Nat × Nat))
  | [], paths, vb => Except.ok (paths, vb)
  | c :: rest, paths, vb =>
    match trace (createColorMask buf c tol) with
    | Except.error e => Except.error e
    | Except.ok res =>
      match res.pathData with
      | none => traceColors trace buf tol rest paths vb
      | some d =>
        if strTrim d = "" then traceColors trace buf tol rest paths vb
        else
          traceColors trace buf tol rest (paths ++ [⟨rgbToHex c, d⟩])
            (match vb with
              | none => res.viewBox
              | some v => some v)

/-- vectorizeWithColors: upscale, extract the palette from the upscaled
raster, trace every palette color, and compose the document; an empty
palette, no surviving path, or no reported viewBox produce the empty
document at the pre-upscale original dimensions. -/
def vectorizeWithColors {ε : Type} (resize : RasterImage → Nat → Nat → RasterImage)
    (trace : MaskImage → Except ε TraceResult) (img : RasterImage)
    (colorTolerance : Nat) (upscale : ℚ) : Except ε VectorDocument :=
  if extractUniqueColors (upscaleForTracing resize img upscale).buffer colorTolerance = [] then
    Except.ok (emptyDocument (upscaleForTracing resize img upscale).originalWidth
      (upscaleForTracing resize img upscale).originalHeight)
  else
    match traceColors trace (upscaleForTracing resize img upscale).buffer colorTolerance
        (extractUniqueColors (upscaleForTracing resize img upscale).buffer colorTolerance)
        [] none with
    | Except.error e => Except.error e
    | Except.ok (paths, vb) =>
      match paths, vb with
      | [], _ =>
        Except.ok (emptyDocument (upscaleForTracing resize img upscale).originalWidth
          (upscaleForTracing resize img upscale).originalHeight)
      | _, none =>
        Except.ok (emptyDocument (upscaleForTracing resize img upscale).originalWidth
          (upscaleForTracing resize img upscale).originalHeight)
      | ps, some v =>
        Except.ok ⟨(upscaleForTracing resize img upscale).originalWidth,
          (upscaleForTracing resize img upscale).originalHeight, v, ps⟩

/-- the identity stand-in for the external resampling primitive. -/
def idResize : RasterImage → Nat → Nat → RasterImage := fun i _ _ => i

/-- trace stand-in that always succeeds with a whitespace-only path. -/
def constTrace : MaskImage → Except Unit TraceResult :=
  fun _ => Except.ok ⟨some "  ", none⟩

/-- a 3 × 3 fully transparent raster. -/
def triImg : RasterImage := ⟨3, 3, fun _ _ => ⟨0, 0, 0, 0⟩⟩

/-- a 1 × 1 fully transparent raster. -/
def blankImg : RasterImage := ⟨1, 1, fun _ _ => ⟨0, 0, 0, 0⟩⟩

/-- a 2 × 1 raster with one opaque and one transparent pixel. -/
def tinyImg : RasterImage :=
  ⟨2, 1, fun x _ => if x = 0 then ⟨10, 10, 10, 255⟩ else ⟨0, 0, 0, 0⟩⟩

/-- a 20 × 20 raster filled with one flat opaque color. -/
def flatImg : RasterImage := ⟨20, 20, fun _ _ => ⟨10, 20, 30, 255⟩⟩

/-- a 7 × 7 raster whose only pixel with positive alpha is at (3, 3). -/
def oneDotImg : RasterImage :=
  ⟨7, 7, fun x y => if x = 3 ∧ y = 3 then ⟨0, 0, 0, 255⟩ else ⟨0, 0, 0, 0⟩⟩

/-- a 7 × 7 raster with opaque pixels at (2, 2) and (4, 4). -/
def twoDotImg : RasterImage :=
  ⟨7, 7, fun x y => if (x = 2 ∧ y = 2) ∨ (x = 4 ∧ y = 4) then ⟨0, 0, 0, 255⟩ else ⟨0, 0, 0, 0⟩⟩

theorem mem_coordList {w h : Nat} {c : Nat × Nat} :
    c ∈ coordList w h ↔ c.1 < w ∧ c.2 < h := by
  cases c with
  | mk a b =>
    simp only [coordList, List.mem_flatMap, List.mem_map, List.mem_range, Prod.mk.injEq]
    constructor
    · rintro ⟨y, hy, x, hx, h1, h2⟩
      subst h1; subst h2; exact ⟨hx, hy⟩
    · rintro ⟨h1, h2⟩; exact ⟨b, h2, a, h1, rfl, rfl⟩

theorem coordList_length (w h : Nat) : (coordList w h).length = h * w := by
  induction h with
  | zero => simp [coordList]
  | succ n ih =>
    unfold coordList at *
    rw [List.range_succ, List.flatMap_append, List.length_append, ih]
    simp [Nat.succ_mul]

theorem colorsMatch_symm {c1 c2 : RGB} {t : Nat} (h : colorsMatch c1 c2 t) :
    colorsMatch c2 c1 t := by
  unfold colorsMatch absDiff at *
  omega

theorem colorsMatch_refl (c : RGB) (t : Nat) : colorsMatch c c t := by
  unfold colorsMatch absDiff
  omega

theorem removeBackground_some (bg : RGB) (t : Nat) (img : RasterImage) :
    removeBackground (some bg) t img =
      ⟨img.width, img.height, fun x y => removeBackgroundPixel bg t (img.pix x y)⟩ := rfl

theorem removeBackgroundPixel_idem (bg : RGB) (t : Nat) (p : RGBA) :
    removeBackgroundPixel bg t (removeBackgroundPixel bg t p) =
      removeBackgroundPixel bg t p := by
  unfold removeBackgroundPixel
  by_cases h : colorsMatch p.rgb bg t
  · rw [if_pos h]
    split <;> rfl
  · rw [if_neg h, if_neg h]

/-- claim C3: for every raster, explicit background color and tolerance,
running the background remover a second time with the same color and
tolerance on its own output yields the same pixel buffer (idempotence). -/
theorem claim_C3 (bg : RGB) (tolerance : Nat) (img : RasterImage) :
    removeBackground (some bg) tolerance (removeBackground (some bg) tolerance img) =
      removeBackground (some bg) tolerance img := by
  rw [removeBackground_some, removeBackground_some]
  congr 1
  funext x y
  exact removeBackgroundPixel_idem bg tolerance (img.pix x y)

/-- claim C7: with an explicit background color the remover is pixel-local
(the output at a coordinate depends only on that coordinate's input pixel,
so corner and center content has no influence and detection is never
consulted), and every pixel whose RGB does not match the explicit color
within the tolerance passes through with its RGB and alpha unchanged. -/
theorem claim_C7 (bg : RGB) (tolerance : Nat) (img : RasterImage) :
    (∀ x y, ¬ colorsMatch (img.pix x y).rgb bg tolerance →
      (removeBackground (some bg) tolerance img).pix x y = img.pix x y) ∧
    (∀ (img2 : RasterImage) (x y : Nat), img2.pix x y = img.pix x y →
      (removeBackground (some bg) tolerance img2).pix x y =
        (removeBackground (some bg) tolerance img).pix x y) := by
  constructor
  · intro x y h
    rw [removeBackground_some]
    simp only [removeBackgroundPixel, if_neg h]
  · intro img2 x y h
    rw [removeBackground_some, removeBackground_some]
    simp only [h]

/-- claim C7 witness: on a solid red raster, with white supplied explicitly
as the background at tolerance 30, the corner pixel passes through. -/
theorem claim_C7_witness :
    (removeBackground (some ⟨255, 255, 255⟩) 30
        ⟨3, 3, fun _ _ => ⟨255, 0, 0, 255⟩⟩).pix 0 0 = ⟨255, 0, 0, 255⟩ :=
  (claim_C7 ⟨255, 255, 255⟩ 30 ⟨3, 3, fun _ _ => ⟨255, 0, 0, 255⟩⟩).1 0 0 (by decide)

theorem bboxStep_bounds (img : RasterImage) (st : Nat × Nat × Nat × Nat) (c : Nat × Nat) :
    (bboxStep img st c).1 ≤ st.1 ∧ (bboxStep img st c).2.1 ≤ st.2.1 ∧
      st.2.2.1 ≤ (bboxStep img st c).2.2.1 ∧ st.2.2.2 ≤ (bboxStep img st c).2.2.2 := by
  unfold bboxStep
  split
  · exact ⟨min_le_left _ _, min_le_left _ _, le_max_left _ _, le_max_left _ _⟩
  · exact ⟨le_refl _, le_refl _, le_refl _, le_refl _⟩

theorem bboxFoldl_mono (img : RasterImage) (l : List (Nat × Nat)) (st : Nat × Nat × Nat × Nat) :
    (l.foldl (bboxStep img) st).1 ≤ st.1 ∧ (l.foldl (bboxStep img) st).2.1 ≤ st.2.1 ∧
      st.2.2.1 ≤ (l.foldl (bboxStep img) st).2.2.1 ∧
      st.2.2.2 ≤ (l.foldl (bboxStep img) st).2.2.2 := by
  induction l generalizing st with
  | nil => exact ⟨le_refl _, le_refl _, le_refl _, le_refl _⟩
  | cons a l ih =>
    have h1 := ih (bboxStep img st a)
    have h2 := bboxStep_bounds img st a
    exact ⟨le_trans h1.1 h2.1, le_trans h1.2.1 h2.2.1,
      le_trans h2.2.2.1 h1.2.2.1, le_trans h2.2.2.2 h1.2.2.2⟩

theorem bboxFoldl_opaque (img : RasterImage) (l : List (Nat × Nat))
    (st : Nat × Nat × Nat × Nat) (c : Nat × Nat) (hc : c ∈ l)
    (ho : 0 < (img.pix c.1 c.2).a) :
    (l.foldl (bboxStep img) st).1 ≤ c.1 ∧ (l.foldl (bboxStep img) st).2.1 ≤ c.2 ∧
      c.1 ≤ (l.foldl (bboxStep img) st).2.2.1 ∧ c.2 ≤ (l.foldl (bboxStep img) st).2.2.2 := by
  induction l generalizing st with
  | nil => cases hc
  | cons a l ih =>
    rcases List.mem_cons.mp hc with h | h
    · subst h
      have hm := bboxFoldl_mono img l (bboxStep img st c)
      have hstep : (bboxStep img st c).1 ≤ c.1 ∧ (bboxStep img st c).2.1 ≤ c.2 ∧
          c.1 ≤ (bboxStep img st c).2.2.1 ∧ c.2 ≤ (bboxStep img st c).2.2.2 := by
        unfold bboxStep
        rw [if_pos ho]
        exact ⟨min_le_right _ _, min_le_right _ _, le_max_right _ _, le_max_right _ _⟩
      exact ⟨le_trans hm.1 hstep.1, le_trans hm.2.1 hstep.2.1,
        le_trans hstep.2.2.1 hm.2.2.1, le_trans hstep.2.2.2 hm.2.2.2⟩
    · exact ih (bboxStep img st a) h

theorem bboxFoldl_cases (img : RasterImage) (l : List (Nat × Nat))
    (st : Nat × Nat × Nat × Nat) :
    ((l.foldl (bboxStep img) st).1 = st.1 ∨
      ∃ c ∈ l, 0 < (img.pix c.1 c.2).a ∧ (l.foldl (bboxStep img) st).1 = c.1) ∧
    ((l.foldl (bboxStep img) st).2.1 = st.2.1 ∨
      ∃ c ∈ l, 0 < (img.pix c.1 c.2).a ∧ (l.foldl (bboxStep img) st).2.1 = c.2) ∧
    ((l.foldl (bboxStep img) st).2.2.1 = st.2.2.1 ∨
      ∃ c ∈ l, 0 < (img.pix c.1 c.2).a ∧ (l.foldl (bboxStep img) st).2.2.1 = c.1) ∧
    ((l.foldl (bboxStep img) st).2.2.2 = st.2.2.2 ∨
      ∃ c ∈ l, 0 < (img.pix c.1 c.2).a ∧ (l.foldl (bboxStep img) st).2.2.2 = c.2) := by
  induction l generalizing st with
  | nil => exact ⟨Or.inl rfl, Or.inl rfl, Or.inl rfl, Or.inl rfl⟩
  | cons a l ih =>
    have ihs := ih (bboxStep img st a)
    have hstep : ((bboxStep img st a).1 = st.1 ∨
          (0 < (img.pix a.1 a.2).a ∧ (bboxStep img st a).1 = a.1)) ∧
        ((bboxStep img st a).2.1 = st.2.1 ∨
          (0 < (img.pix a.1 a.2).a ∧ (bboxStep img st a).2.1 = a.2)) ∧
        ((bboxStep img st a).2.2.1 = st.2.2.1 ∨
          (0 < (img.pix a.1 a.2).a ∧ (bboxStep img st a).2.2.1 = a.1)) ∧
        ((bboxStep img st a).2.2.2 = st.2.2.2 ∨
          (0 < (img.pix a.1 a.2).a ∧ (bboxStep img st a).2.2.2 = a.2)) := by
      unfold bboxStep
      split
      · rename_i hopq
        refine ⟨?_, ?_, ?_, ?_⟩ <;> simp only
        · rcases le_total st.1 a.1 with h | h
          · exact Or.inl (min_eq_left h)
          · exact Or.inr ⟨hopq, min_eq_right h⟩
        · rcases le_total st.2.1 a.2 with h | h
          · exact Or.inl (min_eq_left h)
          · exact Or.inr ⟨hopq, min_eq_right h⟩
        · rcases le_total st.2.2.1 a.1 with h | h
          · exact Or.inr ⟨hopq, max_eq_right h⟩
          · exact Or.inl (max_eq_left h)
        · rcases le_total st.2.2.2 a.2 with h | h
          · exact Or.inr ⟨hopq, max_eq_right h⟩
          · exact Or.inl (max_eq_left h)
      · exact ⟨Or.inl rfl, Or.inl rfl, Or.inl rfl, Or.inl rfl⟩
    refine ⟨?_, ?_, ?_, ?_⟩
    · rcases ihs.1 with h | ⟨c, hc, ho, he⟩
      · rcases hstep.1 with h2 | ⟨ho, he⟩
        · exact Or.inl (h.trans h2)
        · exact Or.inr ⟨a, List.mem_cons_self a l, ho, h.trans he⟩
      · exact Or.inr ⟨c, List.mem_cons_of_mem a hc, ho, he⟩
    · rcases ihs.2.1 with h | ⟨c, hc, ho, he⟩
      · rcases hstep.2.1 with h2 | ⟨ho, he⟩
        · exact Or.inl (h.trans h2)
        · exact Or.inr ⟨a, List.mem_cons_self a l, ho, h.trans he⟩
      · exact Or.inr ⟨c, List.mem_cons_of_mem a hc, ho, he⟩
    · rcases ihs.2.2.1 with h | ⟨c, hc, ho, he⟩
      · rcases hstep.2.2.1 with h2 | ⟨ho, he⟩
        · exact Or.inl (h.trans h2)
        · exact Or.inr ⟨a, List.mem_cons_self a l, ho, h.trans he⟩
      · exact Or.inr ⟨c, List.mem_cons_of_mem a hc, ho, he⟩
    · rcases ihs.2.2.2 with h | ⟨c, hc, ho, he⟩
      · rcases hstep.2.2.2 with h2 | ⟨ho, he⟩
        · exact Or.inl (h.trans h2)
        · exact Or.inr ⟨a, List.mem_cons_self a l, ho, h.trans he⟩
      · exact Or.inr ⟨c, List.mem_cons_of_mem a hc, ho, he⟩

theorem bboxFoldl_nochange (img : RasterImage) (l : List (Nat × Nat))
    (st : Nat × Nat × Nat × Nat) (H : ∀ c ∈ l, (img.pix c.1 c.2).a = 0) :
    l.foldl (bboxStep img) st = st := by
  induction l generalizing st with
  | nil => rfl
  | cons a l ih =>
    have hstep : bboxStep img st a = st := by
      unfold bboxStep
      rw [if_neg]
      simp [H a (List.mem_cons_self a l)]
    rw [List.foldl_cons, hstep]
    exact ih st (fun c hc => H c (List.mem_cons_of_mem a hc))

theorem bbox_opaque_bounds (img : RasterImage) {x y : Nat} (hx : x < img.width)
    (hy : y < img.height) (ho : 0 < (img.pix x y).a) :
    bboxMinX img ≤ x ∧ bboxMinY img ≤ y ∧ x ≤ bboxMaxX img ∧ y ≤ bboxMaxY img :=
  bboxFoldl_opaque img (coordList img.width img.height) _ (x, y)
    (mem_coordList.mpr ⟨hx, hy⟩) ho

theorem bbox_cases (img : RasterImage) :
    (bboxMinX img = img.width ∨
      ∃ x y, x < img.width ∧ y < img.height ∧ 0 < (img.pix x y).a ∧ bboxMinX img = x) ∧
    (bboxMinY img = img.height ∨
      ∃ x y, x < img.width ∧ y < img.height ∧ 0 < (img.pix x y).a ∧ bboxMinY img = y) ∧
    (bboxMaxX img = 0 ∨
      ∃ x y, x < img.width ∧ y < img.height ∧ 0 < (img.pix x y).a ∧ bboxMaxX img = x) ∧
    (bboxMaxY img = 0 ∨
      ∃ x y, x < img.width ∧ y < img.height ∧ 0 < (img.pix x y).a ∧ bboxMaxY img = y) := by
  have h := bboxFoldl_cases img (coordList img.width img.height)
    (img.width, img.height, 0, 0)
  refine ⟨?_, ?_, ?_, ?_⟩
  · rcases h.1 with h1 | ⟨c, hc, ho, he⟩
    · exact Or.inl h1
    · exact Or.inr ⟨c.1, c.2, (mem_coordList.mp hc).1, (mem_coordList.mp hc).2, ho, he⟩
  · rcases h.2.1 with h1 | ⟨c, hc, ho, he⟩
    · exact Or.inl h1
    · exact Or.inr ⟨c.1, c.2, (mem_coordList.mp hc).1, (mem_coordList.mp hc).2, ho, he⟩
  · rcases h.2.2.1 with h1 | ⟨c, hc, ho, he⟩
    · exact Or.inl h1
    · exact Or.inr ⟨c.1, c.2, (mem_coordList.mp hc).1, (mem_coordList.mp hc).2, ho, he⟩
  · rcases h.2.2.2 with h1 | ⟨c, hc, ho, he⟩
    · exact Or.inl h1
    · exact Or.inr ⟨c.1, c.2, (mem_coordList.mp hc).1, (mem_coordList.mp hc).2, ho, he⟩

theorem bboxFold_nochange (img : RasterImage)
    (H : ∀ x y, x < img.width → y < img.height → (img.pix x y).a = 0) :
    bboxFold img = (img.width, img.height, 0, 0) :=
  bboxFoldl_nochange img _ _ (fun c hc =>
    H c.1 c.2 (mem_coordList.mp hc).1 (mem_coordList.mp hc).2)

theorem trimAlpha_eq_self_of_deg (img : RasterImage)
    (h : bboxMinX img ≥ bboxMaxX img ∨ bboxMinY img ≥ bboxMaxY img) :
    trimAlpha img = img := by
  unfold trimAlpha
  rw [if_pos h]

theorem trimAlpha_eq_crop (img : RasterImage) (hx : bboxMinX img < bboxMaxX img)
    (hy : bboxMinY img < bboxMaxY img) :
    trimAlpha img = extractRegion img (bboxMinX img - 2) (bboxMinY img - 2)
      (min (img.width - (bboxMinX img - 2)) (bboxMaxX img - bboxMinX img + 1 + 2 * 2))
      (min (img.height - (bboxMinY img - 2)) (bboxMaxY img - bboxMinY img + 1 + 2 * 2)) := by
  unfold trimAlpha
  rw [if_neg]
  omega

theorem bbox_pin_minX (C : RasterImage) (v : Nat) (hv : v < C.width)
    (hub : bboxMinX C ≤ v)
    (hlb : ∀ x y, x < C.width → y < C.height → 0 < (C.pix x y).a → v ≤ x) :
    bboxMinX C = v := by
  rcases (bbox_cases C).1 with h | ⟨x, y, hxx, hyy, ho, he⟩
  · omega
  · have := hlb x y hxx hyy ho
    omega

theorem bbox_pin_minY (C : RasterImage) (v : Nat) (hv : v < C.height)
    (hub : bboxMinY C ≤ v)
    (hlb : ∀ x y, x < C.width → y < C.height → 0 < (C.pix x y).a → v ≤ y) :
    bboxMinY C = v := by
  rcases (bbox_cases C).2.1 with h | ⟨x, y, hxx, hyy, ho, he⟩
  · omega
  · have := hlb x y hxx hyy ho
    omega

theorem bbox_pin_maxX (C : RasterImage) (v : Nat) (hv : 0 < v)
    (hub : v ≤ bboxMaxX C)
    (hlb : ∀ x y, x < C.width → y < C.height → 0 < (C.pix x y).a → x ≤ v) :
    bboxMaxX C = v := by
  rcases (bbox_cases C).2.2.1 with h | ⟨x, y, hxx, hyy, ho, he⟩
  · omega
  · have := hlb x y hxx hyy ho
    omega

theorem bbox_pin_maxY (C : RasterImage) (v : Nat) (hv : 0 < v)
    (hub : v ≤ bboxMaxY C)
    (hlb : ∀ x y, x < C.width → y < C.height → 0 < (C.pix x y).a → y ≤ v) :
    bboxMaxY C = v := by
  rcases (bbox_cases C).2.2.2 with h | ⟨x, y, hxx, hyy, ho, he⟩
  · omega
  · have := hlb x y hxx hyy ho
    omega

theorem bbox_extract_eq (img : RasterImage) (L T W H : Nat)
    (hx : bboxMinX img < bboxMaxX img) (hy : bboxMinY img < bboxMaxY img)
    (hL : L ≤ bboxMinX img) (hT : T ≤ bboxMinY img)
    (hW : L + W ≤ img.width) (hH : T + H ≤ img.height)
    (hcx : bboxMaxX img < L + W) (hcy : bboxMaxY img < T + H) :
    bboxMinX (extractRegion img L T W H) = bboxMinX img - L ∧
    bboxMinY (extractRegion img L T W H) = bboxMinY img - T ∧
    bboxMaxX (extractRegion img L T W H) = bboxMaxX img - L ∧
    bboxMaxY (extractRegion img L T W H) = bboxMaxY img - T := by
  rcases (bbox_cases img).2.2.1 with h2 | ⟨x2, y2, hx2, hy2, ho2, he2⟩
  · omega
  rcases (bbox_cases img).1 with h1 | ⟨x1, y1, hx1, hy1, ho1, he1⟩
  · omega
  rcases (bbox_cases img).2.2.2 with h4 | ⟨x4, y4, hx4, hy4, ho4, he4⟩
  · omega
  rcases (bbox_cases img).2.1 with h3 | ⟨x3, y3, hx3, hy3, ho3, he3⟩
  · omega
  obtain ⟨hb1, hb2, hb3, hb4⟩ := bbox_opaque_bounds img hx1 hy1 ho1
  obtain ⟨hc1, hc2, hc3, hc4⟩ := bbox_opaque_bounds img hx2 hy2 ho2
  obtain ⟨hd1, hd2, hd3, hd4⟩ := bbox_opaque_bounds img hx3 hy3 ho3
  obtain ⟨hf1, hf2, hf3, hf4⟩ := bbox_opaque_bounds img hx4 hy4 ho4
  have hcov : ∀ x y : Nat, x < W → y < H → 0 < (img.pix (x + L) (y + T)).a →
      (bboxMinX img - L ≤ x ∧ x ≤ bboxMaxX img - L ∧
        bboxMinY img - T ≤ y ∧ y ≤ bboxMaxY img - T) := by
    intro x y hxW hyH ho
    have hxw : x + L < img.width := by omega
    have hyh : y + T < img.height := by omega
    have := bbox_opaque_bounds img hxw hyh ho
    omega
  refine ⟨?_, ?_, ?_, ?_⟩
  · apply bbox_pin_minX
    · show bboxMinX img - L < W
      omega
    · have hcell : 0 < ((extractRegion img L T W H).pix (bboxMinX img - L) (y1 - T)).a := by
        show 0 < (img.pix ((bboxMinX img - L) + L) ((y1 - T) + T)).a
        rw [(by omega : (bboxMinX img - L) + L = bboxMinX img),
          (by omega : (y1 - T) + T = y1), he1]
        exact ho1
      exact (bbox_opaque_bounds (extractRegion img L T W H)
        (show bboxMinX img - L < W by omega) (show y1 - T < H by omega) hcell).1
    · intro x y hxW hyH ho
      exact (hcov x y hxW hyH ho).1
  · apply bbox_pin_minY
    · show bboxMinY img - T < H
      omega
    · have hcell : 0 < ((extractRegion img L T W H).pix (x3 - L) (bboxMinY img - T)).a := by
        show 0 < (img.pix ((x3 - L) + L) ((bboxMinY img - T) + T)).a
        rw [(by omega : (x3 - L) + L = x3),
          (by omega : (bboxMinY img - T) + T = bboxMinY img), he3]
        exact ho3
      exact (bbox_opaque_bounds (extractRegion img L T W H)
        (show x3 - L < W by omega) (show bboxMinY img - T < H by omega) hcell).2.1
    · intro x y hxW hyH ho
      exact (hcov x y hxW hyH ho).2.2.1
  · apply bbox_pin_maxX
    · omega
    · have hcell : 0 < ((extractRegion img L T W H).pix (bboxMaxX img - L) (y2 - T)).a := by
        show 0 < (img.pix ((bboxMaxX img - L) + L) ((y2 - T) + T)).a
        rw [(by omega : (bboxMaxX img - L) + L = bboxMaxX img),
          (by omega : (y2 - T) + T = y2), he2]
        exact ho2
      exact (bbox_opaque_bounds (extractRegion img L T W H)
        (show bboxMaxX img - L < W by omega) (show y2 - T < H by omega) hcell).2.2.1
    · intro x y hxW hyH ho
      exact (hcov x y hxW hyH ho).2.1
  · apply bbox_pin_maxY
    · omega
    · have hcell : 0 < ((extractRegion img L T W H).pix (x4 - L) (bboxMaxY img - T)).a := by
        show 0 < (img.pix ((x4 - L) + L) ((bboxMaxY img - T) + T)).a
        rw [(by omega : (x4 - L) + L = x4),
          (by omega : (bboxMaxY img - T) + T = bboxMaxY img), he4]
        exact ho4
      exact (bbox_opaque_bounds (extractRegion img L T W H)
        (show x4 - L < W by omega) (show bboxMaxY img - T < H by omega) hcell).2.2.2
    · intro x y hxW hyH ho
      exact (hcov x y hxW hyH ho).2.2.2

theorem bboxMaxX_lt_width (img : RasterImage) (hx : bboxMinX img < bboxMaxX img) :
    bboxMaxX img < img.width := by
  rcases (bbox_cases img).2.2.1 with h2 | ⟨x2, y2, hx2, hy2, ho2, he2⟩
  · omega
  · omega

theorem bboxMaxY_lt_height (img : RasterImage) (hy : bboxMinY img < bboxMaxY img) :
    bboxMaxY img < img.height := by
  rcases (bbox_cases img).2.2.2 with h4 | ⟨x4, y4, hx4, hy4, ho4, he4⟩
  · omega
  · omega

theorem extractRegion_width (img : RasterImage) (l t w h : Nat) :
    (extractRegion img l t w h).width = w := rfl

theorem extractRegion_height (img : RasterImage) (l t w h : Nat) :
    (extractRegion img l t w h).height = h := rfl

theorem extract_extract_zero (img : RasterImage) (L T W H W2 H2 : Nat) :
    extractRegion (extractRegion img L T W H) 0 0 W2 H2 =
      extractRegion img L T W2 H2 := by
  unfold extractRegion
  simp

/-- claim C4: the alpha trimmer applied to its own output returns that
output unchanged (trim after trim equals trim). -/
theorem claim_C4 (img : RasterImage) : trimAlpha (trimAlpha img) = trimAlpha img := by
  by_cases hdeg : bboxMinX img ≥ bboxMaxX img ∨ bboxMinY img ≥ bboxMaxY img
  · rw [trimAlpha_eq_self_of_deg img hdeg, trimAlpha_eq_self_of_deg img hdeg]
  · push_neg at hdeg
    obtain ⟨hx, hy⟩ := hdeg
    have hMXw := bboxMaxX_lt_width img hx
    have hMYh := bboxMaxY_lt_height img hy
    rw [trimAlpha_eq_crop img hx hy]
    obtain ⟨e1, e2, e3, e4⟩ := bbox_extract_eq img (bboxMinX img - 2) (bboxMinY img - 2)
      (min (img.width - (bboxMinX img - 2)) (bboxMaxX img - bboxMinX img + 1 + 2 * 2))
      (min (img.height - (bboxMinY img - 2)) (bboxMaxY img - bboxMinY img + 1 + 2 * 2))
      hx hy (by omega) (by omega) (by omega) (by omega) (by omega) (by omega)
    rw [trimAlpha_eq_crop _ (by omega) (by omega)]
    rw [e1, e2, e3, e4]
    rw [(by omega : bboxMinX img - (bboxMinX img - 2) - 2 = 0),
      (by omega : bboxMinY img - (bboxMinY img - 2) - 2 = 0)]
    rw [extract_extract_zero]
    congr 1
    · simp only [extractRegion_width]
      omega
    · simp only [extractRegion_height]
      omega

/-- claim C1 counterexample: the claim "if no pixel has alpha > 0 the input
is returned unchanged; otherwise the output is the crop to the bounding box
of pixels with alpha > 0, expanded by exactly 2 pixels on every side and
clamped to the image bounds" is false: on a 7 × 7 image whose only opaque
pixel is at (3, 3) the code returns the input unchanged (width 7), while
the claimed crop has width 5, because the degeneracy test `minX >= maxX`
also fires when the opaque content spans a single column or row. -/
theorem claim_C1_counterexample :
    ¬ (∀ img : RasterImage,
        ((∀ x y, x < img.width → y < img.height → (img.pix x y).a = 0) →
          trimAlpha img = img) ∧
        ((∃ x y, x < img.width ∧ y < img.height ∧ 0 < (img.pix x y).a) →
          trimAlpha img = specTrim img)) := by
  intro h
  have h2 := (h oneDotImg).2 ⟨3, 3, by decide, by decide, by decide⟩
  have h3 : (trimAlpha oneDotImg).width = (specTrim oneDotImg).width := by rw [h2]
  have h4 : (trimAlpha oneDotImg).width = 7 := by decide
  have h5 : (specTrim oneDotImg).width = 5 := by decide
  omega

/-- claim C1 amended: if no pixel has alpha > 0 the input is returned
unchanged; the scanned box bounds every opaque pixel; the input is also
returned unchanged whenever the box degenerates with `minX >= maxX` or
`minY >= maxY` (single opaque column or row included); otherwise the
output is the crop at `(max(0, minX-2), max(0, minY-2))` of size
`min(width - left, maxX - minX + 5) × min(height - top, maxY - minY + 5)`,
which coincides with the 2-pixel-expanded clamped bounding box except
that a left/top clamp lets the crop extend further right/down. -/
theorem claim_C1_amended (img : RasterImage) :
    ((∀ x y, x < img.width → y < img.height → (img.pix x y).a = 0) →
      trimAlpha img = img) ∧
    (∀ x y, x < img.width → y < img.height → 0 < (img.pix x y).a →
      bboxMinX img ≤ x ∧ x ≤ bboxMaxX img ∧ bboxMinY img ≤ y ∧ y ≤ bboxMaxY img) ∧
    (bboxMaxX img ≤ bboxMinX img ∨ bboxMaxY img ≤ bboxMinY img → trimAlpha img = img) ∧
    (bboxMinX img < bboxMaxX img → bboxMinY img < bboxMaxY img →
      trimAlpha img = extractRegion img (bboxMinX img - 2) (bboxMinY img - 2)
        (min (img.width - (bboxMinX img - 2)) (bboxMaxX img - bboxMinX img + 1 + 2 * 2))
        (min (img.height - (bboxMinY img - 2)) (bboxMaxY img - bboxMinY img + 1 + 2 * 2))) := by
  refine ⟨?_, ?_, ?_, ?_⟩
  · intro H
    have hf := bboxFold_nochange img H
    have h1 : bboxMinX img = img.width := by
      unfold bboxMinX
      rw [hf]
    have h2 : bboxMaxX img = 0 := by
      unfold bboxMaxX
      rw [hf]
    apply trimAlpha_eq_self_of_deg
    omega
  · intro x y hx hy ho
    obtain ⟨a1, a2, a3, a4⟩ := bbox_opaque_bounds img hx hy ho
    exact ⟨a1, a3, a2, a4⟩
  · intro h
    exact trimAlpha_eq_self_of_deg img h
  · exact trimAlpha_eq_crop img

/-- claim C1 amended witness: on the 7 × 7 two-dot raster the box is
nondegenerate and the trimmer produces exactly the stated crop. -/
theorem claim_C1_amended_witness :
    trimAlpha twoDotImg = extractRegion twoDotImg (bboxMinX twoDotImg - 2)
      (bboxMinY twoDotImg - 2)
      (min (twoDotImg.width - (bboxMinX twoDotImg - 2))
        (bboxMaxX twoDotImg - bboxMinX twoDotImg + 1 + 2 * 2))
      (min (twoDotImg.height - (bboxMinY twoDotImg - 2))
        (bboxMaxY twoDotImg - bboxMinY twoDotImg + 1 + 2 * 2)) :=
  (claim_C1_amended twoDotImg).2.2.2 (by decide) (by decide)

theorem cleanupLoop_iterate (dom : RGB) (tol : Nat) :
    ∀ (n : Nat) (img : RasterImage), ∃ k, k ≤ n ∧
      cleanupLoop dom tol n img = (cleanupPass dom tol)^[k] img := by
  intro n
  induction n with
  | zero => exact fun img => ⟨0, le_refl 0, rfl⟩
  | succ n ih =>
    intro img
    unfold cleanupLoop
    by_cases h : removedCount dom tol img = 0
    · rw [if_pos h]
      exact ⟨0, Nat.zero_le _, rfl⟩
    · rw [if_neg h]
      obtain ⟨k, hk, he⟩ := ih (cleanupPass dom tol img)
      refine ⟨k + 1, by omega, ?_⟩
      rw [Function.iterate_succ_apply]
      exact he

theorem cleanupLoop_of_removed_zero (dom : RGB) (tol : Nat) (img : RasterImage)
    (h : removedCount dom tol img = 0) :
    ∀ n, cleanupLoop dom tol n img = img := by
  intro n
  cases n with
  | zero => rfl
  | succ n =>
    unfold cleanupLoop
    rw [if_pos h]

/-- claim C2: for every raster and positive cleanup level, the stage runs
at most `ceil(level / 2)` passes of the per-pixel pass at tolerance
`30 + level * 5` (and is a no-op when no dominant opaque color exists); a
pass zeroes exactly the opaque pixels with a transparent 8-neighbor that
are not within the tolerance of the dominant quantized color and are
either a washed-out same-hue blend (intensity gap strictly between 20 and
150, combined ratio deviation below 0.3) or have 4 or more transparent
neighbors; and a pass that removes zero pixels ends the loop early. -/
theorem claim_C2 (level : Nat) (img : RasterImage) (hl : 0 < level) :
    (getDominantColor img = none → gradientCleanupStage level img = img) ∧
    (∀ dom, getDominantColor img = some dom →
      (∃ k, k ≤ (level + 1) / 2 ∧
        gradientCleanupStage level img = (cleanupPass dom (30 + level * 5))^[k] img) ∧
      (∀ x y, x < img.width → y < img.height →
        (cleanupPass dom (30 + level * 5) img).pix x y =
          if 128 ≤ (img.pix x y).a ∧ 1 ≤ transparentNeighborCount img x y ∧
              ¬ colorsMatch (img.pix x y).rgb dom (30 + level * 5) ∧
              ((isWashedOut dom (img.pix x y).rgb ∧ isSimilarHue dom (img.pix x y).rgb) ∨
                4 ≤ transparentNeighborCount img x y)
          then ⟨0, 0, 0, 0⟩ else img.pix x y) ∧
      (removedCount dom (30 + level * 5) img = 0 → gradientCleanupStage level img = img)) := by
  refine ⟨?_, ?_⟩
  · intro h
    unfold gradientCleanupStage
    rw [if_pos hl]
    unfold cleanupGradientEdges
    rw [h]
  · intro dom hdom
    refine ⟨?_, ?_, ?_⟩
    · unfold gradientCleanupStage
      rw [if_pos hl]
      unfold cleanupGradientEdges
      rw [hdom]
      exact cleanupLoop_iterate dom (30 + level * 5) ((level + 1) / 2) img
    · intro x y hx hy
      have hiff : (128 ≤ (img.pix x y).a ∧ 1 ≤ transparentNeighborCount img x y ∧
          ¬ colorsMatch (img.pix x y).rgb dom (30 + level * 5) ∧
          ((isWashedOut dom (img.pix x y).rgb ∧ isSimilarHue dom (img.pix x y).rgb) ∨
            4 ≤ transparentNeighborCount img x y)) ↔
          gradientRemnant img dom (30 + level * 5) x y := Iff.rfl
      rw [if_congr hiff rfl rfl]
      show (if x < img.width ∧ y < img.height ∧
          gradientRemnant img dom (30 + level * 5) x y then (⟨0, 0, 0, 0⟩ : RGBA)
          else img.pix x y) = _
      by_cases hg : gradientRemnant img dom (30 + level * 5) x y
      · rw [if_pos ⟨hx, hy, hg⟩, if_pos hg]
      · rw [if_neg (fun hc => hg hc.2.2), if_neg hg]
    · intro h
      unfold gradientCleanupStage
      rw [if_pos hl]
      unfold cleanupGradientEdges
      rw [hdom]
      exact cleanupLoop_of_removed_zero dom (30 + level * 5) img h ((level + 1) / 2)

/-- claim C2 witness: at level 1 on a fully transparent raster there is no
dominant color and the stage is a no-op. -/
theorem claim_C2_witness : gradientCleanupStage 1 blankImg = blankImg :=
  (claim_C2 1 blankImg (by decide)).1 (by decide)

theorem RasterImage.ext2 (A B : RasterImage) (hw : A.width = B.width)
    (hh : A.height = B.height) (hp : ∀ x y, A.pix x y = B.pix x y) : A = B := by
  cases A with
  | mk wa ha pa =>
    cases B with
    | mk wb hb pb =>
      simp only at hw hh hp
      subst hw
      subst hh
      congr 1
      funext x y
      exact hp x y

theorem cleanupPassFold_dims (dom : RGB) (tol : Nat) (img : RasterImage) :
    ∀ (order : List (Nat × Nat)) (acc : RasterImage),
      (order.foldl (fun out c =>
        if gradientRemnant img dom tol c.1 c.2 then
          (⟨out.width, out.height, fun x y =>
            if x = c.1 ∧ y = c.2 then ⟨0, 0, 0, 0⟩ else out.pix x y⟩ : RasterImage)
        else out) acc).width = acc.width ∧
      (order.foldl (fun out c =>
        if gradientRemnant img dom tol c.1 c.2 then
          (⟨out.width, out.height, fun x y =>
            if x = c.1 ∧ y = c.2 then ⟨0, 0, 0, 0⟩ else out.pix x y⟩ : RasterImage)
        else out) acc).height = acc.height := by
  intro order
  induction order with
  | nil => exact fun acc => ⟨rfl, rfl⟩
  | cons c l ih =>
    intro acc
    rw [List.foldl_cons]
    refine ⟨?_, ?_⟩
    · rw [(ih _).1]
      split <;> rfl
    · rw [(ih _).2]
      split <;> rfl

theorem cleanupPassFold_pix (dom : RGB) (tol : Nat) (img : RasterImage) :
    ∀ (order : List (Nat × Nat)) (acc : RasterImage) (x y : Nat),
      (order.foldl (fun out c =>
        if gradientRemnant img dom tol c.1 c.2 then
          (⟨out.width, out.height, fun a b =>
            if a = c.1 ∧ b = c.2 then ⟨0, 0, 0, 0⟩ else out.pix a b⟩ : RasterImage)
        else out) acc).pix x y =
      if (x, y) ∈ order ∧ gradientRemnant img dom tol x y then ⟨0, 0, 0, 0⟩
      else acc.pix x y := by
  intro order
  induction order with
  | nil =>
    intro acc x y
    rw [List.foldl_nil, if_neg]
    rintro ⟨h, -⟩
    cases h
  | cons c l ih =>
    intro acc x y
    rw [List.foldl_cons, ih]
    by_cases hg : gradientRemnant img dom tol c.1 c.2
    · rw [if_pos hg]
      by_cases hxy : x = c.1 ∧ y = c.2
      · have hgxy : gradientRemnant img dom tol x y := by
          obtain ⟨h1, h2⟩ := hxy
          rw [h1, h2]
          exact hg
        by_cases hmem : (x, y) ∈ l ∧ gradientRemnant img dom tol x y
        · rw [if_pos hmem, if_pos ⟨List.mem_cons_of_mem c hmem.1, hgxy⟩]
        · rw [if_neg hmem]
          show (if x = c.1 ∧ y = c.2 then (⟨0, 0, 0, 0⟩ : RGBA) else acc.pix x y) = _
          rw [if_pos hxy, if_pos ⟨List.mem_cons.mpr (Or.inl (by
            obtain ⟨h1, h2⟩ := hxy
            rw [h1, h2])), hgxy⟩]
      · have hmeme : ((x, y) ∈ c :: l ∧ gradientRemnant img dom tol x y) ↔
            ((x, y) ∈ l ∧ gradientRemnant img dom tol x y) := by
          constructor
          · rintro ⟨hm, hgg⟩
            rcases List.mem_cons.mp hm with he | hm2
            · exact absurd ⟨congrArg Prod.fst he, congrArg Prod.snd he⟩ hxy
            · exact ⟨hm2, hgg⟩
          · rintro ⟨hm, hgg⟩
            exact ⟨List.mem_cons_of_mem c hm, hgg⟩
        rw [if_congr hmeme rfl rfl]
        by_cases hmem : (x, y) ∈ l ∧ gradientRemnant img dom tol x y
        · rw [if_pos hmem, if_pos hmem]
        · rw [if_neg hmem, if_neg hmem]
          show (if x = c.1 ∧ y = c.2 then (⟨0, 0, 0, 0⟩ : RGBA) else acc.pix x y) = _
          rw [if_neg hxy]
    · rw [if_neg hg]
      have hmeme : ((x, y) ∈ c :: l ∧ gradientRemnant img dom tol x y) ↔
          ((x, y) ∈ l ∧ gradientRemnant img dom tol x y) := by
        constructor
        · rintro ⟨hm, hgg⟩
          rcases List.mem_cons.mp hm with he | hm2
          · exfalso
            apply hg
            have h1 : x = c.1 := congrArg Prod.fst he
            have h2 : y = c.2 := congrArg Prod.snd he
            rw [← h1, ← h2]
            exact hgg
          · exact ⟨hm2, hgg⟩
        · rintro ⟨hm, hgg⟩
          exact ⟨List.mem_cons_of_mem c hm, hgg⟩
      rw [if_congr hmeme rfl rfl]

/-- claim C10: within one pass every clearing decision is evaluated against
the pass's input raster, so the output at a coordinate is the input pixel
unless that coordinate itself satisfies the input-side condition, and
replaying the writes along any permutation of the coordinate enumeration
produces exactly the pointwise pass — the scan order is irrelevant and a
cleared pixel never causes a neighbor to be cleared in the same pass. -/
theorem claim_C10 (dom : RGB) (tol : Nat) (img : RasterImage)
    (order : List (Nat × Nat))
    (hperm : List.Perm order (coordList img.width img.height)) :
    cleanupPassFold dom tol img order = cleanupPass dom tol img := by
  apply RasterImage.ext2
  · exact (cleanupPassFold_dims dom tol img order img).1
  · exact (cleanupPassFold_dims dom tol img order img).2
  · intro x y
    unfold cleanupPassFold
    rw [cleanupPassFold_pix dom tol img order img x y]
    have hmeme : ((x, y) ∈ order ∧ gradientRemnant img dom tol x y) ↔
        (x < img.width ∧ y < img.height ∧ gradientRemnant img dom tol x y) := by
      constructor
      · rintro ⟨hm, hg⟩
        have := mem_coordList.mp (hperm.mem_iff.mp hm)
        exact ⟨this.1, this.2, hg⟩
      · rintro ⟨h1, h2, hg⟩
        exact ⟨hperm.mem_iff.mpr (mem_coordList.mpr ⟨h1, h2⟩), hg⟩
    rw [if_congr hmeme rfl rfl]
    rfl

/-- claim C10 witness: on a 2 × 1 raster, visiting the two coordinates in
reversed order yields the same pass output. -/
theorem claim_C10_witness :
    cleanupPassFold ⟨8, 8, 8⟩ 40 tinyImg [(1, 0), (0, 0)] =
      cleanupPass ⟨8, 8, 8⟩ 40 tinyImg :=
  claim_C10 ⟨8, 8, 8⟩ 40 tinyImg [(1, 0), (0, 0)] (by decide)

theorem sum_map_const {α : Type} (l : List α) (f : α → Nat) (k : Nat)
    (H : ∀ x ∈ l, f x = k) : (l.map f).sum = l.length * k := by
  induction l with
  | nil => simp
  | cons a t ih =>
    simp only [List.map_cons, List.sum_cons, List.length_cons]
    rw [H a (List.mem_cons_self a t), ih (fun x hx => H x (List.mem_cons_of_mem a hx))]
    ring

theorem jsRoundDiv_exact (v n : Nat) (hn : 0 < n) : jsRoundDiv (n * v) n = v := by
  unfold jsRoundDiv
  rw [(by ring : 2 * (n * v) + n = n * (2 * v + 1)), (by ring : 2 * n = n * 2),
    Nat.mul_div_mul_left _ _ hn]
  omega

theorem sampleRegion_const (img : RasterImage) (l t w h : Nat) (p : RGBA)
    (hw : 0 < w) (hh : 0 < h)
    (H : ∀ dx dy, dx < w → dy < h → img.pix (l + dx) (t + dy) = p) :
    sampleRegionColor img l t w h = p := by
  have hr := sum_map_const (coordList w h) (fun c => (img.pix (l + c.1) (t + c.2)).r) p.r
    (fun c hc => by
      show (img.pix (l + c.1) (t + c.2)).r = p.r
      rw [H c.1 c.2 (mem_coordList.mp hc).1 (mem_coordList.mp hc).2])
  have hg := sum_map_const (coordList w h) (fun c => (img.pix (l + c.1) (t + c.2)).g) p.g
    (fun c hc => by
      show (img.pix (l + c.1) (t + c.2)).g = p.g
      rw [H c.1 c.2 (mem_coordList.mp hc).1 (mem_coordList.mp hc).2])
  have hb := sum_map_const (coordList w h) (fun c => (img.pix (l + c.1) (t + c.2)).b) p.b
    (fun c hc => by
      show (img.pix (l + c.1) (t + c.2)).b = p.b
      rw [H c.1 c.2 (mem_coordList.mp hc).1 (mem_coordList.mp hc).2])
  have ha := sum_map_const (coordList w h) (fun c => (img.pix (l + c.1) (t + c.2)).a) p.a
    (fun c hc => by
      show (img.pix (l + c.1) (t + c.2)).a = p.a
      rw [H c.1 c.2 (mem_coordList.mp hc).1 (mem_coordList.mp hc).2])
  rw [coordList_length] at hr hg hb ha
  show RGBA.mk
      (jsRoundDiv (((coordList w h).map (fun c => (img.pix (l + c.1) (t + c.2)).r)).sum) (w * h))
      (jsRoundDiv (((coordList w h).map (fun c => (img.pix (l + c.1) (t + c.2)).g)).sum) (w * h))
      (jsRoundDiv (((coordList w h).map (fun c => (img.pix (l + c.1) (t + c.2)).b)).sum) (w * h))
      (jsRoundDiv (((coordList w h).map (fun c => (img.pix (l + c.1) (t + c.2)).a)).sum) (w * h))
      = p
  rw [hr, hg, hb, ha, (by ring : h * w * p.r = w * h * p.r),
    (by ring : h * w * p.g = w * h * p.g), (by ring : h * w * p.b = w * h * p.b),
    (by ring : h * w * p.a = w * h * p.a),
    jsRoundDiv_exact p.r (w * h) (by positivity), jsRoundDiv_exact p.g (w * h) (by positivity),
    jsRoundDiv_exact p.b (w * h) (by positivity), jsRoundDiv_exact p.a (w * h) (by positivity)]

/-- claim C5: on a raster whose four corner sample regions and center
sample region all hold one flat opaque color (and whose corner sample size
is at least 2), the detector reports no background, because the center
matches the averaged corner candidate within tolerance 30. -/
theorem claim_C5 (img : RasterImage) (c : RGB)
    (hs : 2 ≤ cornerSampleSize img.width img.height)
    (Hc : ∀ l t, (l = 0 ∨ l = img.width - cornerSampleSize img.width img.height) →
      (t = 0 ∨ t = img.height - cornerSampleSize img.width img.height) →
      ∀ dx dy, dx < cornerSampleSize img.width img.height →
        dy < cornerSampleSize img.width img.height →
        img.pix (l + dx) (t + dy) = ⟨c.r, c.g, c.b, 255⟩)
    (Hm : ∀ dx dy, dx < centerSampleSize img.width img.height →
      dy < centerSampleSize img.width img.height →
      img.pix (centerLeft img.width img.height + dx)
        (centerTop img.width img.height + dy) = ⟨c.r, c.g, c.b, 255⟩) :
    detectBackgroundColor img = none := by
  have h20w : 20 ≤ img.width := by
    have h := hs
    unfold cornerSampleSize at h
    omega
  have h20h : 20 ≤ img.height := by
    have h := hs
    unfold cornerSampleSize at h
    omega
  have hsle : cornerSampleSize img.width img.height ≤ 10 := by
    unfold cornerSampleSize
    omega
  have hminw : min (cornerSampleSize img.width img.height) img.width =
      cornerSampleSize img.width img.height := by omega
  have hminh : min (cornerSampleSize img.width img.height) img.height =
      cornerSampleSize img.width img.height := by omega
  have hc0 : cornerColor0 img = ⟨c.r, c.g, c.b, 255⟩ := by
    unfold cornerColor0
    rw [hminw, hminh]
    exact sampleRegion_const img (max 0 0) (max 0 0) _ _ _ (by omega) (by omega)
      (fun dx dy hdx hdy => Hc (max 0 0) (max 0 0) (Or.inl (by omega)) (Or.inl (by omega))
        dx dy hdx hdy)
  have hc1 : cornerColor1 img = ⟨c.r, c.g, c.b, 255⟩ := by
    unfold cornerColor1
    rw [hminw, hminh]
    exact sampleRegion_const img _ (max 0 0) _ _ _ (by omega) (by omega)
      (fun dx dy hdx hdy => Hc _ (max 0 0) (Or.inr (by omega)) (Or.inl (by omega))
        dx dy hdx hdy)
  have hc2 : cornerColor2 img = ⟨c.r, c.g, c.b, 255⟩ := by
    unfold cornerColor2
    rw [hminw, hminh]
    exact sampleRegion_const img (max 0 0) _ _ _ _ (by omega) (by omega)
      (fun dx dy hdx hdy => Hc (max 0 0) _ (Or.inl (by omega)) (Or.inr (by omega))
        dx dy hdx hdy)
  have hc3 : cornerColor3 img = ⟨c.r, c.g, c.b, 255⟩ := by
    unfold cornerColor3
    rw [hminw, hminh]
    exact sampleRegion_const img _ _ _ _ _ (by omega) (by omega)
      (fun dx dy hdx hdy => Hc _ _ (Or.inr (by omega)) (Or.inr (by omega)) dx dy hdx hdy)
  have hcs : 0 < centerSampleSize img.width img.height := by
    unfold centerSampleSize cornerSampleSize
    omega
  have hcc : centerColor img = ⟨c.r, c.g, c.b, 255⟩ := by
    unfold centerColor
    exact sampleRegion_const img _ _ _ _ _ hcs hcs Hm
  have havg : avgCornerColor img = c := by
    unfold avgCornerColor
    rw [hc0, hc1, hc2, hc3]
    show RGB.mk (jsRoundDiv (c.r + c.r + c.r + c.r) 4) (jsRoundDiv (c.g + c.g + c.g + c.g) 4)
      (jsRoundDiv (c.b + c.b + c.b + c.b) 4) = c
    rw [(by ring : c.r + c.r + c.r + c.r = 4 * c.r),
      (by ring : c.g + c.g + c.g + c.g = 4 * c.g),
      (by ring : c.b + c.b + c.b + c.b = 4 * c.b),
      jsRoundDiv_exact c.r 4 (by norm_num), jsRoundDiv_exact c.g 4 (by norm_num),
      jsRoundDiv_exact c.b 4 (by norm_num)]
  unfold detectBackgroundColor
  rw [if_neg (show ¬ (img.width = 0 ∨ img.height = 0) by omega)]
  rw [if_neg (show ¬ (cornerSampleSize img.width img.height < 2) by omega)]
  rw [hc0, hc1, hc2, hc3, hcc, havg]
  rw [if_neg (show ¬ ((((⟨c.r, c.g, c.b, 255⟩ : RGBA).a + (⟨c.r, c.g, c.b, 255⟩ : RGBA).a +
    (⟨c.r, c.g, c.b, 255⟩ : RGBA).a + (⟨c.r, c.g, c.b, 255⟩ : RGBA).a : ℚ) / 4) < 128) from by
      dsimp only
      norm_num)]
  rw [if_neg (show ¬ ¬ (colorsMatch (⟨c.r, c.g, c.b, 255⟩ : RGBA).rgb
      (⟨c.r, c.g, c.b, 255⟩ : RGBA).rgb 30 ∧
      colorsMatch (⟨c.r, c.g, c.b, 255⟩ : RGBA).rgb (⟨c.r, c.g, c.b, 255⟩ : RGBA).rgb 30 ∧
      colorsMatch (⟨c.r, c.g, c.b, 255⟩ : RGBA).rgb (⟨c.r, c.g, c.b, 255⟩ : RGBA).rgb 30 ∧
      colorsMatch (⟨c.r, c.g, c.b, 255⟩ : RGBA).rgb (⟨c.r, c.g, c.b, 255⟩ : RGBA).rgb 30) from
    fun hn => hn ⟨colorsMatch_refl _ 30, colorsMatch_refl _ 30, colorsMatch_refl _ 30,
      colorsMatch_refl _ 30⟩)]
  rw [if_pos (show colorsMatch (⟨c.r, c.g, c.b, 255⟩ : RGBA).rgb c 30 from
    colorsMatch_refl c 30)]

/-- claim C5 witness: a uniform 20 × 20 flat opaque raster yields no
detected background. -/
theorem claim_C5_witness : detectBackgroundColor flatImg = none :=
  claim_C5 flatImg ⟨10, 20, 30⟩ (by decide)
    (fun _ _ _ _ _ _ _ _ => rfl) (fun _ _ _ _ => rfl)

theorem greedyDistinct_pairwise (tol : Nat) :
    ∀ (l acc : List RGB), acc.Pairwise (fun a b => ¬ colorsMatch a b tol) →
      (greedyDistinct tol l acc).Pairwise (fun a b => ¬ colorsMatch a b tol) := by
  intro l
  induction l with
  | nil => exact fun acc h => h
  | cons c t ih =>
    intro acc h
    unfold greedyDistinct
    by_cases hany : acc.any (fun e => decide (colorsMatch c e tol)) = true
    · rw [if_pos hany]
      exact ih acc h
    · rw [if_neg hany]
      apply ih
      rw [List.pairwise_append]
      refine ⟨h, List.pairwise_singleton _ c, ?_⟩
      intro a ha b hb
      simp only [List.mem_singleton] at hb
      subst hb
      intro hmatch
      exact hany (List.any_eq_true.mpr
        ⟨a, ha, decide_eq_true (colorsMatch_symm hmatch)⟩)

theorem greedyDistinct_head (tol : Nat) :
    ∀ (l acc : List RGB) (d : RGB) (rest : List RGB), acc = d :: rest →
      ∃ rest2, greedyDistinct tol l acc = d :: rest2 := by
  intro l
  induction l with
  | nil =>
    intro acc d rest h
    exact ⟨rest, by rw [← h]; rfl⟩
  | cons c t ih =>
    intro acc d rest h
    unfold greedyDistinct
    by_cases hany : acc.any (fun e => decide (colorsMatch c e tol)) = true
    · rw [if_pos hany]
      exact ih acc d rest h
    · rw [if_neg hany]
      exact ih (acc ++ [c]) d (rest ++ [c]) (by rw [h]; rfl)

theorem mem_distinctKeys :
    ∀ (l acc : List RGB) (c : RGB), c ∈ distinctKeys l acc ↔ c ∈ l ∨ c ∈ acc := by
  intro l
  induction l with
  | nil =>
    intro acc c
    unfold distinctKeys
    rw [List.mem_reverse]
    simp
  | cons a t ih =>
    intro acc c
    unfold distinctKeys
    by_cases h : a ∈ acc
    · rw [if_pos h, ih]
      simp only [List.mem_cons]
      constructor
      · rintro (h1 | h2)
        · exact Or.inl (Or.inr h1)
        · exact Or.inr h2
      · rintro (h1 | h2)
        · rcases h1 with he | h1
          · subst he
            exact Or.inr h
          · exact Or.inl h1
        · exact Or.inr h2
    · rw [if_neg h, ih]
      simp only [List.mem_cons]
      constructor
      · rintro (h1 | h2)
        · exact Or.inl (Or.inr h1)
        · rcases h2 with he | h2
          · exact Or.inl (Or.inl he)
          · exact Or.inr h2
      · rintro (h1 | h2)
        · rcases h1 with he | h1
          · exact Or.inr (Or.inl he)
          · exact Or.inl h1
        · exact Or.inr (Or.inr h2)

/-- claim C6: no two colors returned by the unique color extractor match
each other within the tolerance, and whenever an opaque pixel exists the
list is nonempty and starts with a color of maximal exact frequency (itself
the color of some opaque pixel). -/
theorem claim_C6 (img : RasterImage) (tol : Nat) :
    (extractUniqueColors img tol).Pairwise (fun a b => ¬ colorsMatch a b tol) ∧
    (∀ c : RGB, (∃ x y, x < img.width ∧ y < img.height ∧ 128 ≤ (img.pix x y).a ∧
        (img.pix x y).rgb = c) →
      ∃ d rest, extractUniqueColors img tol = d :: rest ∧
        colorFreq img c ≤ colorFreq img d ∧ d ∈ opaqueColors img) := by
  constructor
  · exact greedyDistinct_pairwise tol (sortedColors img) [] List.Pairwise.nil
  · rintro c ⟨x, y, hx, hy, ha, hc⟩
    have hcmem : c ∈ opaqueColors img := by
      apply List.mem_filterMap.mpr
      exact ⟨(x, y), mem_coordList.mpr ⟨hx, hy⟩, by rw [if_pos ha, hc]⟩
    have hkey : c ∈ colorKeys img := (mem_distinctKeys _ _ c).mpr (Or.inl hcmem)
    have hsortmem : c ∈ sortedColors img :=
      (List.Perm.mem_iff (List.perm_insertionSort _ _)).mpr hkey
    obtain ⟨d, rest, hsort⟩ : ∃ d rest, sortedColors img = d :: rest := by
      cases hEq : sortedColors img with
      | nil =>
        rw [hEq] at hsortmem
        cases hsortmem
      | cons d rest => exact ⟨d, rest, rfl⟩
    have hsorted := List.sorted_insertionSort (freqRel img) (colorKeys img)
    rw [show List.insertionSort (freqRel img) (colorKeys img) = sortedColors img from rfl,
      hsort] at hsorted
    have hmax : ∀ e ∈ rest, colorFreq img e ≤ colorFreq img d :=
      fun e he => (List.sorted_cons.mp hsorted).1 e he
    have hcle : colorFreq img c ≤ colorFreq img d := by
      rw [hsort] at hsortmem
      rcases List.mem_cons.mp hsortmem with he | he
      · rw [he]
      · exact hmax c he
    have hdmem : d ∈ opaqueColors img := by
      have hd : d ∈ sortedColors img := by
        rw [hsort]
        exact List.mem_cons_self d rest
      have hk := (List.Perm.mem_iff (List.perm_insertionSort _ _)).mp hd
      rcases (mem_distinctKeys _ _ d).mp hk with h | h
      · exact h
      · cases h
    obtain ⟨rest2, hgr⟩ := greedyDistinct_head tol rest ([] ++ [d]) d [] rfl
    refine ⟨d, rest2, ?_, hcle, hdmem⟩
    unfold extractUniqueColors
    rw [hsort]
    show greedyDistinct tol (d :: rest) [] = d :: rest2
    unfold greedyDistinct
    rw [if_neg (by simp)]
    exact hgr

/-- claim C6 witness: on the 2 × 1 one-opaque-pixel raster the extractor
returns a pairwise non-matching list headed by a maximal-frequency opaque
color. -/
theorem claim_C6_witness :
    (extractUniqueColors tinyImg 20).Pairwise (fun a b => ¬ colorsMatch a b 20) ∧
      ∃ d rest, extractUniqueColors tinyImg 20 = d :: rest ∧
        colorFreq tinyImg ⟨10, 10, 10⟩ ≤ colorFreq tinyImg d ∧ d ∈ opaqueColors tinyImg :=
  ⟨(claim_C6 tinyImg 20).1,
    (claim_C6 tinyImg 20).2 ⟨10, 10, 10⟩ ⟨0, 0, by decide, by decide, by decide, by decide⟩⟩

theorem upscale_originalWidth (resize : RasterImage → Nat → Nat → RasterImage)
    (img : RasterImage) (f : ℚ) :
    (upscaleForTracing resize img f).originalWidth = img.width := by
  unfold upscaleForTracing
  split
  · rfl
  · split <;> rfl

theorem upscale_originalHeight (resize : RasterImage → Nat → Nat → RasterImage)
    (img : RasterImage) (f : ℚ) :
    (upscaleForTracing resize img f).originalHeight = img.height := by
  unfold upscaleForTracing
  split
  · rfl
  · split <;> rfl

theorem jsRoundQ_le (x : ℚ) (n : Nat) (h : x ≤ n) : jsRoundQ x ≤ n := by
  unfold jsRoundQ
  have h3 : ⌊(n : ℚ) + 1 / 2⌋ = (n : ℤ) := by
    rw [add_comm, (by push_cast; ring : ((n : ℚ)) = ((n : ℤ) : ℚ)), Int.floor_add_int]
    norm_num
  have h2 : ⌊x + 1 / 2⌋ ≤ ⌊(n : ℚ) + 1 / 2⌋ := Int.floor_le_floor (by linarith)
  omega

/-- claim C9: for positive dimensions, a requested factor whose scaled
longest side would exceed 4000 is replaced by `4000 / max(width, height)`;
whenever the effective scale exceeds 1 both rounded target dimensions stay
at most 4000; and an effective scale of at most 1 returns the input buffer
unchanged with scale 1 and the original dimensions. -/
theorem claim_C9 (resize : RasterImage → Nat → Nat → RasterImage)
    (img : RasterImage) (scaleFactor : ℚ)
    (hw : 0 < img.width) (hh : 0 < img.height) :
    (((max img.width img.height : ℕ) : ℚ) * scaleFactor > 4000 →
      effectiveScale img.width img.height scaleFactor =
        4000 / ((max img.width img.height : ℕ) : ℚ)) ∧
    (1 < effectiveScale img.width img.height scaleFactor →
      jsRoundQ ((img.width : ℚ) * effectiveScale img.width img.height scaleFactor) ≤ 4000 ∧
      jsRoundQ ((img.height : ℚ) * effectiveScale img.width img.height scaleFactor) ≤ 4000) ∧
    (effectiveScale img.width img.height scaleFactor ≤ 1 →
      upscaleForTracing resize img scaleFactor = ⟨img, 1, img.width, img.height⟩) := by
  have hm : (0 : ℚ) < ((max img.width img.height : ℕ) : ℚ) := by
    have : 0 < max img.width img.height := by omega
    exact_mod_cast this
  have hwm : ((img.width : ℕ) : ℚ) ≤ ((max img.width img.height : ℕ) : ℚ) := by
    have : img.width ≤ max img.width img.height := le_max_left _ _
    exact_mod_cast this
  have hhm : ((img.height : ℕ) : ℚ) ≤ ((max img.width img.height : ℕ) : ℚ) := by
    have : img.height ≤ max img.width img.height := le_max_right _ _
    exact_mod_cast this
  refine ⟨?_, ?_, ?_⟩
  · intro h
    unfold effectiveScale
    rw [if_pos h]
  · intro h1
    unfold effectiveScale at h1 ⊢
    by_cases hcap : ((max img.width img.height : ℕ) : ℚ) * scaleFactor > 4000
    · rw [if_pos hcap] at h1 ⊢
      constructor
      · apply jsRoundQ_le
        have hb : (img.width : ℚ) * (4000 / ((max img.width img.height : ℕ) : ℚ)) ≤
            ((max img.width img.height : ℕ) : ℚ) *
              (4000 / ((max img.width img.height : ℕ) : ℚ)) := by
          apply mul_le_mul_of_nonneg_right hwm
          positivity
        rw [mul_div_cancel₀ (4000 : ℚ) (ne_of_gt hm)] at hb
        exact_mod_cast hb
      · apply jsRoundQ_le
        have hb : (img.height : ℚ) * (4000 / ((max img.width img.height : ℕ) : ℚ)) ≤
            ((max img.width img.height : ℕ) : ℚ) *
              (4000 / ((max img.width img.height : ℕ) : ℚ)) := by
          apply mul_le_mul_of_nonneg_right hhm
          positivity
        rw [mul_div_cancel₀ (4000 : ℚ) (ne_of_gt hm)] at hb
        exact_mod_cast hb
    · rw [if_neg hcap] at h1 ⊢
      push_neg at hcap
      have hsf : (0 : ℚ) < scaleFactor := by linarith
      constructor
      · apply jsRoundQ_le
        calc (img.width : ℚ) * scaleFactor
            ≤ ((max img.width img.height : ℕ) : ℚ) * scaleFactor :=
              mul_le_mul_of_nonneg_right hwm (le_of_lt hsf)
          _ ≤ 4000 := hcap
          _ = ((4000 : ℕ) : ℚ) := by norm_num
      · apply jsRoundQ_le
        calc (img.height : ℚ) * scaleFactor
            ≤ ((max img.width img.height : ℕ) : ℚ) * scaleFactor :=
              mul_le_mul_of_nonneg_right hhm (le_of_lt hsf)
          _ ≤ 4000 := hcap
          _ = ((4000 : ℕ) : ℚ) := by norm_num
  · intro h
    unfold upscaleForTracing
    rw [if_neg (show ¬ (img.width = 0 ∨ img.height = 0) by omega), if_pos h]

/-- claim C9 witness: a 3 × 3 raster at requested factor 10000 has its
factor capped to 4000 / 3. -/
theorem claim_C9_witness :
    effectiveScale triImg.width triImg.height 10000 =
      4000 / ((max triImg.width triImg.height : ℕ) : ℚ) :=
  (claim_C9 idResize triImg 10000 (by decide) (by decide)).1
    (by norm_num [triImg, Nat.max_self])

theorem traceColors_all_empty {ε : Type} (trace : MaskImage → Except ε TraceResult)
    (buf : RasterImage) (tol : Nat) :
    ∀ (colors : List RGB),
      (∀ c ∈ colors, ∃ res, trace (createColorMask buf c tol) = Except.ok res ∧
        (res.pathData = none ∨ ∃ d, res.pathData = some d ∧ strTrim d = "")) →
      ∀ (paths : List PathFragment) (vb : Option (Nat × Nat)),
        traceColors trace buf tol colors paths vb = Except.ok (paths, vb) := by
  intro colors
  induction colors with
  | nil => exact fun _ paths vb => rfl
  | cons c rest ih =>
    intro H paths vb
    obtain ⟨res, hres, hempty⟩ := H c (List.mem_cons_self c rest)
    have ihr := ih (fun e he => H e (List.mem_cons_of_mem c he))
    rcases hempty with hnone | ⟨d, hd, htrim⟩
    · simp only [traceColors, hres, hnone]
      exact ihr paths vb
    · simp only [traceColors, hres, hd]
      rw [if_pos htrim]
      exact ihr paths vb

/-- claim C8: when the palette extracted from the (possibly upscaled)
raster is empty, or every per-color trace attempt succeeds but yields no
usable path (missing or whitespace-only), the orchestrator returns — with
no error — the empty document (zero fragments) whose display width and
height are the pre-upscale original dimensions. -/
theorem claim_C8 {ε : Type} (resize : RasterImage → Nat → Nat → RasterImage)
    (trace : MaskImage → Except ε TraceResult) (img : RasterImage)
    (colorTolerance : Nat) (upscale : ℚ) :
    (extractUniqueColors (upscaleForTracing resize img upscale).buffer colorTolerance = [] →
      vectorizeWithColors resize trace img colorTolerance upscale =
        Except.ok (emptyDocument img.width img.height)) ∧
    ((∀ c ∈ extractUniqueColors (upscaleForTracing resize img upscale).buffer colorTolerance,
        ∃ res, trace (createColorMask (upscaleForTracing resize img upscale).buffer c
            colorTolerance) = Except.ok res ∧
          (res.pathData = none ∨ ∃ d, res.pathData = some d ∧ strTrim d = "")) →
      vectorizeWithColors resize trace img colorTolerance upscale =
        Except.ok (emptyDocument img.width img.height)) := by
  constructor
  · intro h
    unfold vectorizeWithColors
    rw [if_pos h, upscale_originalWidth, upscale_originalHeight]
  · intro H
    by_cases hcol : extractUniqueColors (upscaleForTracing resize img upscale).buffer
        colorTolerance = []
    · unfold vectorizeWithColors
      rw [if_pos hcol, upscale_originalWidth, upscale_originalHeight]
    · unfold vectorizeWithColors
      rw [if_neg hcol,
        traceColors_all_empty trace (upscaleForTracing resize img upscale).buffer
          colorTolerance _ H [] none]
      show Except.ok (emptyDocument (upscaleForTracing resize img upscale).originalWidth
        (upscaleForTracing resize img upscale).originalHeight) = _
      rw [upscale_originalWidth, upscale_originalHeight]

/-- claim C8 witness: with a tracer that always reports a whitespace-only
path, the 2 × 1 raster vectorizes to the empty document at its own size,
with no error. -/
theorem claim_C8_witness :
    vectorizeWithColors idResize constTrace tinyImg 20 2 =
      Except.ok (emptyDocument tinyImg.width tinyImg.height) :=
  (claim_C8 idResize constTrace tinyImg 20 2).2
    (fun _ _ => ⟨⟨some "  ", none⟩, rfl, Or.inr ⟨"  ", rfl, rfl⟩⟩)
